import Mathlib

/-!
Verification development for the bikefit repository.

The embedding below models the frame-analysis pipeline of
`src/bikefit/bikefit.py` (class `BikeFit`) and the data class of
`src/bikefit/analysis.py` (class `Analysis`):

* the geometry utility `BikeFit._calculate_angle` over the reals,
  with numpy's `arctan2 y x` rendered as the argument of the complex
  number `x + y*I` (both have range `(-pi, pi]`);
* the per-frame loop body of `BikeFit._run_analysis` as a transition
  function on an explicit worker state, driven by a list of per-frame
  pose-detection outcomes;
* the lifecycle methods `start_analysis` / `stop_analysis` and a
  small-step interleaving semantics for the worker thread and a
  caller, used for the join/snapshot claims.
-/

/-! ## Geometry utility: `BikeFit._calculate_angle` -/

/-- numpy's `arctan2 y x`, i.e. the angle of the ray to `(x, y)`,
    in `(-pi, pi]`, rendered as the argument of `x + y*I`. -/
noncomputable def atan2 (y x : ℝ) : ℝ := Complex.arg ⟨x, y⟩

/-- Source translation of `BikeFit._calculate_angle(a, b, c)`:
    `radians = np.arctan2(c[1]-b[1], c[0]-b[0]) - np.arctan2(a[1]-b[1], a[0]-b[0])`,
    `angle = np.abs(radians * 180.0 / np.pi)`, and if `angle > 180` the
    result is `360 - angle`. -/
noncomputable def calculate_angle (a b c : ℝ × ℝ) : ℝ :=
  let radians := atan2 (c.2 - b.2) (c.1 - b.1) - atan2 (a.2 - b.2) (a.1 - b.1)
  let angle := |radians * 180 / Real.pi|
  if angle > 180 then 360 - angle else angle

/-- `a`, `b`, `c` are collinear with `b` strictly between `a` and `c`:
    the vector `b -> c` is a negative multiple of the nonzero vector
    `b -> a`. -/
def StraightThrough (a b c : ℝ × ℝ) : Prop :=
  a ≠ b ∧ ∃ k : ℝ, 0 < k ∧
    c.1 - b.1 = -(k * (a.1 - b.1)) ∧ c.2 - b.2 = -(k * (a.2 - b.2))

lemma abs_arg_neg_sub_arg {z : ℂ} (hz : z ≠ 0) :
    |Complex.arg (-z) - Complex.arg z| = Real.pi := by
  rcases lt_trichotomy z.im 0 with him | him | him
  · rw [Complex.arg_neg_eq_arg_add_pi_of_im_neg him]
    simpa using abs_of_pos Real.pi_pos
  · rcases lt_trichotomy z.re 0 with hre | hre | hre
    · have h1 : Complex.arg z = Real.pi := Complex.arg_eq_pi_iff.mpr ⟨hre, him⟩
      have h2 : Complex.arg (-z) = 0 := by
        apply Complex.arg_eq_zero_iff.mpr
        constructor
        · simpa [Complex.neg_re] using hre.le
        · simp [Complex.neg_im, him]
      rw [h1, h2]
      simpa using abs_of_pos Real.pi_pos
    · exact absurd (Complex.ext (by simp [hre]) (by simp [him])) hz
    · have h1 : Complex.arg z = 0 := Complex.arg_eq_zero_iff.mpr ⟨hre.le, him⟩
      have h2 : Complex.arg (-z) = Real.pi := by
        apply Complex.arg_eq_pi_iff.mpr
        constructor
        · simpa [Complex.neg_re] using hre
        · simp [Complex.neg_im, him]
      rw [h1, h2]
      simpa using abs_of_pos Real.pi_pos
  · rw [Complex.arg_neg_eq_arg_sub_pi_of_im_pos him]
    simpa using abs_of_pos Real.pi_pos

lemma calculate_angle_nonneg_le (a b c : ℝ × ℝ) :
    0 ≤ calculate_angle a b c ∧ calculate_angle a b c ≤ 180 := by
  have hpi : (0:ℝ) < Real.pi := Real.pi_pos
  set u := atan2 (c.2 - b.2) (c.1 - b.1) with hu
  set v := atan2 (a.2 - b.2) (a.1 - b.1) with hv
  have hub : -Real.pi < u ∧ u ≤ Real.pi :=
    ⟨Complex.neg_pi_lt_arg _, Complex.arg_le_pi _⟩
  have hvb : -Real.pi < v ∧ v ≤ Real.pi :=
    ⟨Complex.neg_pi_lt_arg _, Complex.arg_le_pi _⟩
  have habs : |(u - v) * 180 / Real.pi| < 360 := by
    rw [abs_div, abs_of_pos hpi, div_lt_iff hpi, abs_mul]
    have h180 : |(180:ℝ)| = 180 := by norm_num
    rw [h180]
    have : |u - v| < 2 * Real.pi := by
      rw [abs_sub_lt_iff]
      constructor <;> linarith [hub.1, hub.2, hvb.1, hvb.2]
    nlinarith
  have h0 : (0:ℝ) ≤ |(u - v) * 180 / Real.pi| := abs_nonneg _
  unfold calculate_angle
  rw [← hu, ← hv]
  by_cases h : |(u - v) * 180 / Real.pi| > 180
  · rw [if_pos h]
    constructor <;> linarith
  · rw [if_neg h]
    push_neg at h
    exact ⟨h0, h⟩

lemma calculate_angle_straight (a b c : ℝ × ℝ) (h : StraightThrough a b c) :
    calculate_angle a b c = 180 := by
  obtain ⟨hab, k, hk, h1, h2⟩ := h
  have hpi : (0:ℝ) < Real.pi := Real.pi_pos
  set z : ℂ := ⟨a.1 - b.1, a.2 - b.2⟩ with hz
  have hzne : z ≠ 0 := by
    intro hz0
    apply hab
    have hre : a.1 - b.1 = 0 := congrArg Complex.re hz0
    have him : a.2 - b.2 = 0 := congrArg Complex.im hz0
    have : a.1 = b.1 := by linarith
    have : a.2 = b.2 := by linarith
    exact Prod.ext (by linarith) (by linarith)
  have hc : (⟨c.1 - b.1, c.2 - b.2⟩ : ℂ) = (k : ℂ) * (-z) := by
    apply Complex.ext
    · rw [Complex.re_ofReal_mul]
      simp only [Complex.neg_re, hz]
      rw [h1]; ring
    · rw [Complex.im_ofReal_mul]
      simp only [Complex.neg_im, hz]
      rw [h2]; ring
  have hargc : atan2 (c.2 - b.2) (c.1 - b.1) = Complex.arg (-z) := by
    unfold atan2
    rw [hc, Complex.arg_real_mul _ hk]
  have harga : atan2 (a.2 - b.2) (a.1 - b.1) = Complex.arg z := rfl
  unfold calculate_angle
  rw [hargc, harga]
  have hd : |(Complex.arg (-z) - Complex.arg z) * 180 / Real.pi| = 180 := by
    rw [abs_div, abs_of_pos hpi, abs_mul]
    rw [abs_arg_neg_sub_arg hzne]
    have h180 : |(180:ℝ)| = 180 := by norm_num
    rw [h180]
    field_simp
  simp only [hd]
  norm_num

lemma calculate_angle_right_angle :
    calculate_angle (1, 0) (0, 0) (0, 1) = 90 := by
  have hpi : (0:ℝ) < Real.pi := Real.pi_pos
  have h1 : atan2 (1 - 0) (0 - 0) = Real.pi / 2 := by
    unfold atan2
    have : (⟨0 - 0, 1 - 0⟩ : ℂ) = Complex.I := by
      apply Complex.ext <;> simp [Complex.I_re, Complex.I_im]
    rw [this, Complex.arg_I]
  have h2 : atan2 (0 - 0) (1 - 0) = 0 := by
    unfold atan2
    have : (⟨1 - 0, 0 - 0⟩ : ℂ) = 1 := by
      apply Complex.ext <;> simp
    rw [this, Complex.arg_one]
  unfold calculate_angle
  simp only [h1, h2]
  have hval : (Real.pi / 2 - 0) * 180 / Real.pi = 90 := by
    field_simp
    ring
  rw [hval]
  have h90 : |(90:ℝ)| = 90 := by norm_num
  rw [h90]
  norm_num

/-- C4: for points `a`, `c` non-coincident with the vertex `b` the angle
    computation returns a value in `[0, 180]`; when the absolute atan2
    difference in degrees exceeds 180 the result is 360 minus that value;
    for a straight-line configuration (`a`, `b`, `c` collinear with `b`
    between `a` and `c`) it returns 180; and for the right-angle
    configuration `a=(1,0)`, `b=(0,0)`, `c=(0,1)` it returns 90. -/
theorem calculate_angle_spec :
    (∀ a b c : ℝ × ℝ, a ≠ b → c ≠ b →
      0 ≤ calculate_angle a b c ∧ calculate_angle a b c ≤ 180) ∧
    (∀ a b c : ℝ × ℝ,
      180 < |(atan2 (c.2 - b.2) (c.1 - b.1) - atan2 (a.2 - b.2) (a.1 - b.1)) * 180 / Real.pi| →
      calculate_angle a b c =
        360 - |(atan2 (c.2 - b.2) (c.1 - b.1) - atan2 (a.2 - b.2) (a.1 - b.1)) * 180 / Real.pi|) ∧
    (∀ a b c : ℝ × ℝ, StraightThrough a b c → calculate_angle a b c = 180) ∧
    calculate_angle (1, 0) (0, 0) (0, 1) = 90 := by
  refine ⟨fun a b c _ _ => calculate_angle_nonneg_le a b c, ?_,
    calculate_angle_straight, calculate_angle_right_angle⟩
  intro a b c h
  unfold calculate_angle
  rw [if_pos h]

/-- Witness for C4: the three quantified parts applied at concrete
    configurations (right-angle triple for the range part, the reflex
    configuration `a=(0,-1)`, `b=(0,0)`, `c=(-1,0)` whose raw degree
    difference is 270, and the straight line through `(1,0)`, `(0,0)`,
    `(-1,0)`). -/
theorem calculate_angle_spec_witness :
    (0 ≤ calculate_angle (1, 0) (0, 0) (0, 1) ∧
      calculate_angle (1, 0) (0, 0) (0, 1) ≤ 180) ∧
    calculate_angle (0, -1) (0, 0) (-1, 0) =
      360 - |(atan2 ((0:ℝ) - 0) ((-1:ℝ) - 0) - atan2 ((-1:ℝ) - 0) ((0:ℝ) - 0)) * 180 / Real.pi| ∧
    calculate_angle (1, 0) (0, 0) (-1, 0) = 180 := by
  have hpi : (0:ℝ) < Real.pi := Real.pi_pos
  have hc : atan2 ((0:ℝ) - 0) ((-1:ℝ) - 0) = Real.pi := by
    unfold atan2
    have : (⟨(-1:ℝ) - 0, (0:ℝ) - 0⟩ : ℂ) = -1 := by
      apply Complex.ext <;> simp
    rw [this, Complex.arg_neg_one]
  have ha : atan2 ((-1:ℝ) - 0) ((0:ℝ) - 0) = -(Real.pi / 2) := by
    unfold atan2
    have : (⟨(0:ℝ) - 0, (-1:ℝ) - 0⟩ : ℂ) = -Complex.I := by
      apply Complex.ext <;> simp [Complex.I_re, Complex.I_im]
    rw [this, Complex.arg_neg_I]
  have hraw : 180 < |(atan2 ((0:ℝ) - 0) ((-1:ℝ) - 0) -
      atan2 ((-1:ℝ) - 0) ((0:ℝ) - 0)) * 180 / Real.pi| := by
    rw [hc, ha]
    have hval : (Real.pi - -(Real.pi / 2)) * 180 / Real.pi = 270 := by
      field_simp
      ring
    rw [hval]
    rw [show |(270:ℝ)| = 270 by norm_num]
    norm_num
  refine ⟨calculate_angle_spec.1 (1, 0) (0, 0) (0, 1) ?_ ?_,
    calculate_angle_spec.2.1 (0, -1) (0, 0) (-1, 0) hraw,
    calculate_angle_spec.2.2.1 (1, 0) (0, 0) (-1, 0)
      ⟨?_, 1, by norm_num⟩⟩
  · intro h
    have := congrArg Prod.fst h
    norm_num at this
  · intro h
    have := congrArg Prod.snd h
    norm_num at this
  · intro h
    have := congrArg Prod.fst h
    norm_num at this

/-! ## Data model: `Analysis` (src/bikefit/analysis.py) and per-frame snapshots -/

/-- One mediapipe pose landmark: normalized position and visibility. -/
structure Landmark where
  x : ℝ
  y : ℝ
  visibility : ℝ

/-- The joint-name keys used by `_run_analysis` (Python `str` keys of
    `frame_joints`, e.g. `"left_shoulder"`). -/
inductive JointName
  | left_shoulder | left_elbow | left_wrist | left_hip | left_knee | left_ankle
  | right_shoulder | right_elbow | right_wrist | right_hip | right_knee | right_ankle
  deriving DecidableEq

/-- The angle-name keys used by `_run_analysis` (Python `str` keys of
    `frame_angles`). -/
inductive AngleName
  | left_elbow | left_knee | right_elbow | right_knee
  deriving DecidableEq

/-- Per-frame joint map: joint name to `(x, y, visibility)`. -/
abbrev JointSnap := List (JointName × (ℝ × ℝ × ℝ))

/-- Per-frame angle map: angle name to degrees. -/
abbrev AngleSnap := List (AngleName × ℝ)

/-- The `Analysis` dataclass: `frame_count`, `joints` (frame number to
    joint map) and `angles` (frame number to angle map).  Python dicts
    are modelled as insertion-ordered association lists. -/
structure Analysis where
  frame_count : ℕ
  joints : List (ℕ × JointSnap)
  angles : List (ℕ × AngleSnap)

/-- First value stored under key `k`, mirroring Python dict lookup. -/
def lookupKey {α : Type} : List (ℕ × α) → ℕ → Option α
  | [], _ => none
  | p :: rest, k => if p.1 = k then some p.2 else lookupKey rest k

/-- Python dict assignment `d[k] = v`: overwrite in place when the key
    exists, append otherwise (dicts preserve insertion order). -/
def dictInsert {α : Type} (d : List (ℕ × α)) (k : ℕ) (v : α) : List (ℕ × α) :=
  match lookupKey d k with
  | some _ => d.map (fun p => if p.1 = k then (k, v) else p)
  | none => d ++ [(k, v)]

/-- The locked store update of `_run_analysis`:
    `self._analysis.frame_count += 1`,
    `self._analysis.joints[frame_number] = frame_joints`,
    `self._analysis.angles[frame_number] = frame_angles`. -/
def writeFrame (an : Analysis) (n : ℕ) (fj : JointSnap) (fa : AngleSnap) : Analysis :=
  { frame_count := an.frame_count + 1
    joints := dictInsert an.joints n fj
    angles := dictInsert an.angles n fa }

/-! ### mediapipe `PoseLandmark` enum values used by the extraction code -/

def LEFT_SHOULDER : ℕ := 11
def RIGHT_SHOULDER : ℕ := 12
def LEFT_ELBOW : ℕ := 13
def RIGHT_ELBOW : ℕ := 14
def LEFT_WRIST : ℕ := 15
def RIGHT_WRIST : ℕ := 16
def LEFT_HIP : ℕ := 23
def RIGHT_HIP : ℕ := 24
def LEFT_KNEE : ℕ := 25
def RIGHT_KNEE : ℕ := 26
def LEFT_ANKLE : ℕ := 27
def RIGHT_ANKLE : ℕ := 28

/-- The `frame_joints` dict built by `_run_analysis` from a full
    landmark set, in source insertion order. -/
def extractJoints (lm : ℕ → Landmark) : JointSnap :=
  [ (.left_shoulder, ((lm LEFT_SHOULDER).x, (lm LEFT_SHOULDER).y, (lm LEFT_SHOULDER).visibility)),
    (.left_elbow, ((lm LEFT_ELBOW).x, (lm LEFT_ELBOW).y, (lm LEFT_ELBOW).visibility)),
    (.left_wrist, ((lm LEFT_WRIST).x, (lm LEFT_WRIST).y, (lm LEFT_WRIST).visibility)),
    (.left_hip, ((lm LEFT_HIP).x, (lm LEFT_HIP).y, (lm LEFT_HIP).visibility)),
    (.left_knee, ((lm LEFT_KNEE).x, (lm LEFT_KNEE).y, (lm LEFT_KNEE).visibility)),
    (.left_ankle, ((lm LEFT_ANKLE).x, (lm LEFT_ANKLE).y, (lm LEFT_ANKLE).visibility)),
    (.right_shoulder, ((lm RIGHT_SHOULDER).x, (lm RIGHT_SHOULDER).y, (lm RIGHT_SHOULDER).visibility)),
    (.right_elbow, ((lm RIGHT_ELBOW).x, (lm RIGHT_ELBOW).y, (lm RIGHT_ELBOW).visibility)),
    (.right_wrist, ((lm RIGHT_WRIST).x, (lm RIGHT_WRIST).y, (lm RIGHT_WRIST).visibility)),
    (.right_hip, ((lm RIGHT_HIP).x, (lm RIGHT_HIP).y, (lm RIGHT_HIP).visibility)),
    (.right_knee, ((lm RIGHT_KNEE).x, (lm RIGHT_KNEE).y, (lm RIGHT_KNEE).visibility)),
    (.right_ankle, ((lm RIGHT_ANKLE).x, (lm RIGHT_ANKLE).y, (lm RIGHT_ANKLE).visibility)) ]

/-- The 2D point `[landmark.x, landmark.y]` used for angle computation. -/
def lmPoint (lm : ℕ → Landmark) (i : ℕ) : ℝ × ℝ := ((lm i).x, (lm i).y)

/-- The `frame_angles` dict built by `_run_analysis`: the four
    `_calculate_angle` calls, in source insertion order. -/
noncomputable def computeAngles (lm : ℕ → Landmark) : AngleSnap :=
  [ (.left_elbow, calculate_angle (lmPoint lm LEFT_SHOULDER) (lmPoint lm LEFT_ELBOW) (lmPoint lm LEFT_WRIST)),
    (.left_knee, calculate_angle (lmPoint lm LEFT_HIP) (lmPoint lm LEFT_KNEE) (lmPoint lm LEFT_ANKLE)),
    (.right_elbow, calculate_angle (lmPoint lm RIGHT_SHOULDER) (lmPoint lm RIGHT_ELBOW) (lmPoint lm RIGHT_WRIST)),
    (.right_knee, calculate_angle (lmPoint lm RIGHT_HIP) (lmPoint lm RIGHT_KNEE) (lmPoint lm RIGHT_ANKLE)) ]

/-! ## The background loop of `BikeFit._run_analysis` -/

/-- What one `self.pose.process(image)` call yields for a readable frame:

    * `detected lm cbRaises`: `results.pose_landmarks` is present with the
      full landmark set `lm`; `cbRaises` records whether the registered
      `on_new_frame` callback raises when invoked for this frame;
    * `noPerson`: `results.pose_landmarks` is `None`, so the attribute
      access at the top of the `try` block raises and is swallowed;
    * `badLandmarks`: `process` returned, but reading the landmark data
      inside the `try` block raises (swallowed like a miss);
    * `fault`: the `self.pose.process(image)` call itself raises.  That
      call sits *outside* the `try` block of `_run_analysis`. -/
inductive PoseOutcome
  | detected (lm : ℕ → Landmark) (cbRaises : Bool)
  | noPerson
  | badLandmarks
  | fault

/-- The worker-side state of an engine run: the shared `_is_running`
    flag, the shared `Analysis` object, the loop-local `frame_number`,
    resource-release flags, whether an uncaught exception escaped
    `_run_analysis` (terminating the thread), the log of callback
    invocations, and whether `on_new_frame` registered a callback. -/
structure WorkerState where
  isRunning : Bool
  analysis : Analysis
  frameNumber : ℕ
  sourceReleased : Bool
  poseClosed : Bool
  crashed : Bool
  delivered : List (ℕ × JointSnap × AngleSnap)
  hasCallback : Bool

/-- Worker state right after `start_analysis` spawned the thread on a
    freshly constructed engine. -/
def initialWorker (hasCb : Bool) : WorkerState :=
  { isRunning := true
    analysis := { frame_count := 0, joints := [], angles := [] }
    frameNumber := 0
    sourceReleased := false
    poseClosed := false
    crashed := false
    delivered := []
    hasCallback := hasCb }

/-- One iteration of the loop body of `_run_analysis` on a readable
    frame, after the frame was read successfully:

    * a `fault` from `pose.process` is uncaught (it is outside the
      `try`), so the exception escapes and the thread dies;
    * `noPerson` / `badLandmarks` raise inside the `try` and are
      swallowed by `except Exception: pass` — nothing is written and
      `frame_number` is *not* incremented;
    * on `detected`, the joint and angle dicts are built, the store is
      updated under the lock, then (if registered) the callback is
      invoked with `(frame_number, frame_joints, frame_angles)`; if the
      callback raises, the `except` swallows it *after* the store write,
      skipping the `frame_number += 1`. -/
noncomputable def processEvent (s : WorkerState) (ev : PoseOutcome) : WorkerState :=
  match ev with
  | .fault => { s with crashed := true }
  | .noPerson => s
  | .badLandmarks => s
  | .detected lm cbRaises =>
      let fj := extractJoints lm
      let fa := computeAngles lm
      let an := writeFrame s.analysis s.frameNumber fj fa
      if s.hasCallback then
        let s' := { s with analysis := an,
                           delivered := s.delivered ++ [(s.frameNumber, fj, fa)] }
        if cbRaises then s' else { s' with frameNumber := s.frameNumber + 1 }
      else { s with analysis := an, frameNumber := s.frameNumber + 1 }

/-- The resource release after the loop exits normally:
    `self.video_source.release()` and `self.pose.close()`. -/
def normalExit (s : WorkerState) : WorkerState :=
  { s with sourceReleased := true, poseClosed := true }

/-- The `if not ret:` branch: `self.stop_analysis()` then `break`.
    When `_is_running` is still true, `stop_analysis` clears the flag and
    then calls `self._thread.join()` *from the worker thread itself*,
    which raises `RuntimeError` (cannot join current thread); the
    exception escapes `_run_analysis`, so the `break` and the release
    lines never run.  When the flag was already cleared, `stop_analysis`
    just prints and returns, the `break` executes and the resources are
    released. -/
def readFailStop (s : WorkerState) : WorkerState :=
  if s.isRunning = false then normalExit s
  else { s with isRunning := false, crashed := true }

/-- The frame-processing portion of the loop run over a list of
    readable-frame outcomes: iterate `processEvent`; once an uncaught
    exception has escaped, the thread is dead and nothing further runs. -/
noncomputable def runFrames : WorkerState → List PoseOutcome → WorkerState
  | s, [] => s
  | s, ev :: rest => if s.crashed = true then s else runFrames (processEvent s ev) rest

/-- A whole `_run_analysis` execution over a source whose readable
    frames yield `evs`; after the last one, the next read fails
    (`ret == False`, end of stream). -/
noncomputable def runWorker : WorkerState → List PoseOutcome → WorkerState
  | s, [] => if s.isRunning = false then normalExit s else readFailStop s
  | s, ev :: rest =>
      if s.isRunning = false then normalExit s
      else
        let s' := processEvent s ev
        if s'.crashed = true then s' else runWorker s' rest

/-! ### Association-list lemmas -/

lemma lookupKey_append_left {α : Type} {d : List (ℕ × α)} (e : List (ℕ × α))
    {k : ℕ} {v : α} (h : lookupKey d k = some v) :
    lookupKey (d ++ e) k = some v := by
  induction d with
  | nil => simp [lookupKey] at h
  | cons p rest ih =>
      by_cases hp : p.1 = k
      · simp_all [lookupKey]
      · simp only [lookupKey, if_neg hp] at h
        simpa [lookupKey, if_neg hp] using ih h

lemma lookupKey_eq_none {α : Type} {d : List (ℕ × α)} {k : ℕ}
    (h : k ∉ d.map Prod.fst) : lookupKey d k = none := by
  induction d with
  | nil => rfl
  | cons p rest ih =>
      simp only [List.map_cons, List.mem_cons] at h
      push_neg at h
      have hp : p.1 ≠ k := fun hp => h.1 hp.symm
      simp only [lookupKey, if_neg hp]
      exact ih h.2

lemma lookupKey_append_right {α : Type} {d : List (ℕ × α)} (e : List (ℕ × α))
    {k : ℕ} (h : lookupKey d k = none) :
    lookupKey (d ++ e) k = lookupKey e k := by
  induction d with
  | nil => rfl
  | cons p rest ih =>
      by_cases hp : p.1 = k
      · simp [lookupKey, if_pos hp] at h
      · simp only [lookupKey, if_neg hp] at h
        simpa [lookupKey, if_neg hp] using ih h

lemma dictInsert_of_none {α : Type} {d : List (ℕ × α)} {k : ℕ} (v : α)
    (h : lookupKey d k = none) : dictInsert d k v = d ++ [(k, v)] := by
  unfold dictInsert
  rw [h]

lemma dictInsert_of_some {α : Type} {d : List (ℕ × α)} {k : ℕ} {w : α} (v : α)
    (h : lookupKey d k = some w) :
    dictInsert d k v = d.map (fun p => if p.1 = k then (k, v) else p) := by
  unfold dictInsert
  rw [h]

lemma keys_dictInsert_of_some {α : Type} {d : List (ℕ × α)} {k : ℕ} {w : α} (v : α)
    (h : lookupKey d k = some w) :
    (dictInsert d k v).map Prod.fst = d.map Prod.fst := by
  rw [dictInsert_of_some v h, List.map_map]
  apply List.map_congr_left
  intro p _
  by_cases hp : p.1 = k
  · simp [hp]
  · simp [hp]

lemma lookupKey_dictInsert_self {α : Type} (d : List (ℕ × α)) (k : ℕ) (v : α) :
    lookupKey (dictInsert d k v) k = some v := by
  unfold dictInsert
  cases hl : lookupKey d k with
  | none =>
      rw [lookupKey_append_right _ hl]
      simp [lookupKey]
  | some w =>
      induction d with
      | nil => simp [lookupKey] at hl
      | cons p rest ih =>
          by_cases hp : p.1 = k
          · simp [lookupKey, if_pos hp]
          · simp only [lookupKey, if_neg hp] at hl
            simpa [lookupKey, if_neg hp] using ih hl

/-! ### Basic `processEvent` and run lemmas -/

lemma processEvent_noPerson (s : WorkerState) : processEvent s .noPerson = s := rfl

lemma processEvent_badLandmarks (s : WorkerState) : processEvent s .badLandmarks = s := rfl

lemma processEvent_fault (s : WorkerState) :
    processEvent s .fault = { s with crashed := true } := rfl

lemma processEvent_isRunning (s : WorkerState) (ev : PoseOutcome) :
    (processEvent s ev).isRunning = s.isRunning := by
  cases ev with
  | detected lm cbRaises =>
      simp only [processEvent]
      by_cases hcb : s.hasCallback <;> cases cbRaises <;> simp [hcb]
  | noPerson => rfl
  | badLandmarks => rfl
  | fault => rfl

lemma processEvent_hasCallback (s : WorkerState) (ev : PoseOutcome) :
    (processEvent s ev).hasCallback = s.hasCallback := by
  cases ev with
  | detected lm cbRaises =>
      simp only [processEvent]
      by_cases hcb : s.hasCallback <;> cases cbRaises <;> simp [hcb]
  | noPerson => rfl
  | badLandmarks => rfl
  | fault => rfl

lemma processEvent_crashed (s : WorkerState) (lm : ℕ → Landmark) (cbRaises : Bool) :
    (processEvent s (.detected lm cbRaises)).crashed = s.crashed := by
  simp only [processEvent]
  by_cases hcb : s.hasCallback <;> cases cbRaises <;> simp [hcb]

lemma runFrames_of_crashed (s : WorkerState) (evs : List PoseOutcome)
    (h : s.crashed = true) : runFrames s evs = s := by
  cases evs with
  | nil => rfl
  | cons ev rest => simp [runFrames, h]

lemma runFrames_append (s : WorkerState) (p q : List PoseOutcome) :
    runFrames s (p ++ q) = runFrames (runFrames s p) q := by
  induction p generalizing s with
  | nil => rfl
  | cons ev rest ih =>
      by_cases h : s.crashed = true
      · rw [runFrames_of_crashed s _ h, runFrames_of_crashed s _ h,
          runFrames_of_crashed s _ h]
      · simp only [List.cons_append, runFrames, if_neg h]
        exact ih _

/-! ### Store invariant along the loop -/

/-- The per-frame outcome does not make the registered callback raise
    (clean frames, misses and even model faults qualify). -/
def CbOk : PoseOutcome → Prop
  | .detected _ r => r = false
  | _ => True

/-- The outcome is a successful detection. -/
def IsDetected : PoseOutcome → Prop
  | .detected _ _ => True
  | _ => False

/-- Invariant of the worker state maintained by the loop as long as the
    callback never raises: the stored keys of `joints` and `angles` are
    exactly `0..frame_number-1`, `frame_count` equals `frame_number`,
    the delivered callback indices are exactly `0..frame_number-1` when
    a callback is registered, and every delivered snapshot pair is the
    one stored under its frame key. -/
structure GoodState (s : WorkerState) : Prop where
  jkeys : s.analysis.joints.map Prod.fst = List.range s.frameNumber
  akeys : s.analysis.angles.map Prod.fst = List.range s.frameNumber
  count : s.analysis.frame_count = s.frameNumber
  dkeys : s.delivered.map Prod.fst =
    (if s.hasCallback = true then List.range s.frameNumber else [])
  dlook : ∀ n j a, (n, j, a) ∈ s.delivered →
    lookupKey s.analysis.joints n = some j ∧ lookupKey s.analysis.angles n = some a

lemma goodState_initial (hasCb : Bool) : GoodState (initialWorker hasCb) := by
  refine ⟨?_, ?_, ?_, ?_, ?_⟩ <;> simp [initialWorker]

lemma processEvent_detected_cbRaises {s : WorkerState} (lm : ℕ → Landmark)
    (hcb : s.hasCallback = true) :
    processEvent s (.detected lm true) =
      { s with
          analysis := writeFrame s.analysis s.frameNumber (extractJoints lm) (computeAngles lm)
          delivered := s.delivered ++ [(s.frameNumber, extractJoints lm, computeAngles lm)] } := by
  simp [processEvent, hcb]

lemma processEvent_detected_cb {s : WorkerState} (lm : ℕ → Landmark)
    (hcb : s.hasCallback = true) :
    processEvent s (.detected lm false) =
      { s with
          analysis := writeFrame s.analysis s.frameNumber (extractJoints lm) (computeAngles lm)
          delivered := s.delivered ++ [(s.frameNumber, extractJoints lm, computeAngles lm)]
          frameNumber := s.frameNumber + 1 } := by
  simp [processEvent, hcb]

lemma processEvent_detected_no_cb {s : WorkerState} (lm : ℕ → Landmark) (r : Bool)
    (hcb : s.hasCallback = false) :
    processEvent s (.detected lm r) =
      { s with
          analysis := writeFrame s.analysis s.frameNumber (extractJoints lm) (computeAngles lm)
          frameNumber := s.frameNumber + 1 } := by
  simp [processEvent, hcb]

lemma goodState_processEvent {s : WorkerState} {ev : PoseOutcome}
    (hg : GoodState s) (hcb : CbOk ev) : GoodState (processEvent s ev) := by
  cases ev with
  | noPerson => exact hg
  | badLandmarks => exact hg
  | fault => exact ⟨hg.jkeys, hg.akeys, hg.count, hg.dkeys, hg.dlook⟩
  | detected lm r =>
      have hr : r = false := hcb
      subst hr
      have hjn : lookupKey s.analysis.joints s.frameNumber = none := by
        apply lookupKey_eq_none
        rw [hg.jkeys]
        simp
      have han : lookupKey s.analysis.angles s.frameNumber = none := by
        apply lookupKey_eq_none
        rw [hg.akeys]
        simp
      have hdj : dictInsert s.analysis.joints s.frameNumber (extractJoints lm) =
          s.analysis.joints ++ [(s.frameNumber, extractJoints lm)] :=
        dictInsert_of_none _ hjn
      have hda : dictInsert s.analysis.angles s.frameNumber (computeAngles lm) =
          s.analysis.angles ++ [(s.frameNumber, computeAngles lm)] :=
        dictInsert_of_none _ han
      have hdel := hg.dkeys
      have hdlook : ∀ n j a,
          (n, j, a) ∈ s.delivered ++ [(s.frameNumber, extractJoints lm, computeAngles lm)] →
          lookupKey (writeFrame s.analysis s.frameNumber (extractJoints lm)
              (computeAngles lm)).joints n = some j ∧
          lookupKey (writeFrame s.analysis s.frameNumber (extractJoints lm)
              (computeAngles lm)).angles n = some a := by
        intro n j a hm
        simp only [List.mem_append, List.mem_singleton] at hm
        rcases hm with hold | hnew
        · obtain ⟨hl1, hl2⟩ := hg.dlook n j a hold
          constructor
          · simp only [writeFrame]
            rw [hdj]
            exact lookupKey_append_left _ hl1
          · simp only [writeFrame]
            rw [hda]
            exact lookupKey_append_left _ hl2
        · simp only [Prod.mk.injEq] at hnew
          obtain ⟨rfl, rfl, rfl⟩ := hnew
          exact ⟨lookupKey_dictInsert_self .., lookupKey_dictInsert_self ..⟩
      cases hcbv : s.hasCallback with
      | true =>
          rw [hcbv, if_pos rfl] at hdel
          rw [processEvent_detected_cb lm hcbv]
          refine ⟨?_, ?_, ?_, ?_, ?_⟩
          · simp only [writeFrame]
            rw [hdj]
            simp [hg.jkeys, List.range_succ]
          · simp only [writeFrame]
            rw [hda]
            simp [hg.akeys, List.range_succ]
          · simp [writeFrame, hg.count]
          · simp [hcbv, hdel, List.range_succ]
          · exact hdlook
      | false =>
          rw [hcbv] at hdel
          simp only [Bool.false_eq_true, if_false] at hdel
          rw [processEvent_detected_no_cb lm false hcbv]
          refine ⟨?_, ?_, ?_, ?_, ?_⟩
          · simp only [writeFrame]
            rw [hdj]
            simp [hg.jkeys, List.range_succ]
          · simp only [writeFrame]
            rw [hda]
            simp [hg.akeys, List.range_succ]
          · simp [writeFrame, hg.count]
          · simp [hcbv, hdel]
          · intro n j a hm
            obtain ⟨hl1, hl2⟩ := hg.dlook n j a hm
            constructor
            · simp only [writeFrame]
              rw [hdj]
              exact lookupKey_append_left _ hl1
            · simp only [writeFrame]
              rw [hda]
              exact lookupKey_append_left _ hl2

lemma goodState_runFrames {s : WorkerState} {evs : List PoseOutcome}
    (hg : GoodState s) (hcb : ∀ ev ∈ evs, CbOk ev) : GoodState (runFrames s evs) := by
  induction evs generalizing s with
  | nil => exact hg
  | cons ev rest ih =>
      by_cases h : s.crashed = true
      · rw [runFrames_of_crashed _ _ h]
        exact hg
      · simp only [runFrames, if_neg h]
        exact ih (goodState_processEvent hg (hcb ev (by simp)))
          (fun e he => hcb e (by simp [he]))

lemma runFrames_isRunning (s : WorkerState) (evs : List PoseOutcome) :
    (runFrames s evs).isRunning = s.isRunning := by
  induction evs generalizing s with
  | nil => rfl
  | cons ev rest ih =>
      by_cases h : s.crashed = true
      · rw [runFrames_of_crashed _ _ h]
      · simp only [runFrames, if_neg h]
        rw [ih, processEvent_isRunning]

lemma runFrames_hasCallback (s : WorkerState) (evs : List PoseOutcome) :
    (runFrames s evs).hasCallback = s.hasCallback := by
  induction evs generalizing s with
  | nil => rfl
  | cons ev rest ih =>
      by_cases h : s.crashed = true
      · rw [runFrames_of_crashed _ _ h]
      · simp only [runFrames, if_neg h]
        rw [ih, processEvent_hasCallback]

lemma processEvent_crashed_of_not_fault (s : WorkerState) (ev : PoseOutcome)
    (h : ev ≠ PoseOutcome.fault) : (processEvent s ev).crashed = s.crashed := by
  cases ev with
  | detected lm r => exact processEvent_crashed s lm r
  | noPerson => rfl
  | badLandmarks => rfl
  | fault => exact absurd rfl h

lemma processEvent_detected_frameNumber (s : WorkerState) (lm : ℕ → Landmark) :
    (processEvent s (.detected lm false)).frameNumber = s.frameNumber + 1 := by
  cases hcb : s.hasCallback with
  | true => rw [processEvent_detected_cb lm hcb]
  | false => rw [processEvent_detected_no_cb lm false hcb]

lemma runFrames_frameNumber_detected {s : WorkerState} {evs : List PoseOutcome}
    (hcr : s.crashed = false)
    (hev : ∀ ev ∈ evs, IsDetected ev ∧ CbOk ev) :
    (runFrames s evs).frameNumber = s.frameNumber + evs.length := by
  induction evs generalizing s with
  | nil => rfl
  | cons ev rest ih =>
      obtain ⟨hd, hok⟩ := hev ev (by simp)
      cases ev with
      | noPerson => exact absurd hd (by simp [IsDetected])
      | badLandmarks => exact absurd hd (by simp [IsDetected])
      | fault => exact absurd hd (by simp [IsDetected])
      | detected lm r =>
          have hr : r = false := hok
          subst hr
          have hcr' : (processEvent s (.detected lm false)).crashed = false := by
            rw [processEvent_crashed]
            exact hcr
          simp only [runFrames, hcr, Bool.false_eq_true, if_false]
          rw [ih hcr' (fun e he => hev e (by simp [he])),
            processEvent_detected_frameNumber]
          simp only [List.length_cons]
          omega

lemma runWorker_eq_readFailStop {s : WorkerState} {evs : List PoseOutcome}
    (hrun : s.isRunning = true) (hcr : s.crashed = false)
    (hnf : ∀ ev ∈ evs, ev ≠ PoseOutcome.fault) :
    runWorker s evs = readFailStop (runFrames s evs) := by
  induction evs generalizing s with
  | nil => simp [runWorker, runFrames, hrun]
  | cons ev rest ih =>
      have hcr' : (processEvent s ev).crashed = false := by
        rw [processEvent_crashed_of_not_fault s ev (hnf ev (by simp))]
        exact hcr
      have hrun' : (processEvent s ev).isRunning = true := by
        rw [processEvent_isRunning]
        exact hrun
      simp only [runWorker, runFrames, hrun, hcr, hcr', Bool.true_eq_false,
        Bool.false_eq_true, if_false]
      exact ih hrun' hcr' (fun e he => hnf e (by simp [he]))

lemma readFailStop_analysis (s : WorkerState) :
    (readFailStop s).analysis = s.analysis := by
  unfold readFailStop normalExit
  split <;> rfl

lemma readFailStop_frameNumber (s : WorkerState) :
    (readFailStop s).frameNumber = s.frameNumber := by
  unfold readFailStop normalExit
  split <;> rfl

/-- The all-zero landmark set, used for concrete runs. -/
def lm0 : ℕ → Landmark := fun _ => { x := 0, y := 0, visibility := 0 }

/-- C2 counterexample: the claim quantifies over every execution, but
    when the registered callback raises for a frame, the store write for
    that frame is kept while `frame_number` is not advanced, so the next
    successful frame overwrites the same key: after the run
    `[detected (callback raises), detected]` the store has
    `frame_count = 2` but only one `joints` entry, falsifying
    `len(joints) == frame_count` after a successful frame write (and the
    keys `0..N-1` for `N = 2` readable frames with no misses). -/
theorem store_invariant_cex :
    (runWorker (initialWorker true)
        [.detected lm0 true, .detected lm0 false]).analysis.frame_count = 2 ∧
    (runWorker (initialWorker true)
        [.detected lm0 true, .detected lm0 false]).analysis.joints.length = 1 ∧
    (runWorker (initialWorker true)
        [.detected lm0 true, .detected lm0 false]).analysis.joints.length ≠
      (runWorker (initialWorker true)
        [.detected lm0 true, .detected lm0 false]).analysis.frame_count := by
  refine ⟨?_, ?_, ?_⟩ <;>
    simp [runWorker, processEvent, initialWorker, writeFrame, dictInsert,
      lookupKey, readFailStop, normalExit]

/-- C2 amended: provided the registered callback never raises, after
    each successful frame write the store satisfies
    `len(joints) == len(angles) == frame_count` (stated for the state
    after every prefix of the run), and a run over a source with `N`
    readable frames and no detection misses ends with `frame_count = N`
    and the keys of `joints` and `angles` exactly the contiguous range
    `0..N-1`. -/
theorem store_invariant (hasCb : Bool) (evs p q : List PoseOutcome)
    (hsplit : evs = p ++ q) (hcb : ∀ ev ∈ evs, CbOk ev) :
    ((runFrames (initialWorker hasCb) p).analysis.joints.length =
        (runFrames (initialWorker hasCb) p).analysis.angles.length ∧
      (runFrames (initialWorker hasCb) p).analysis.frame_count =
        (runFrames (initialWorker hasCb) p).analysis.joints.length) ∧
    ((∀ ev ∈ evs, IsDetected ev) →
      (runWorker (initialWorker hasCb) evs).analysis.frame_count = evs.length ∧
      (runWorker (initialWorker hasCb) evs).analysis.joints.map Prod.fst =
        List.range evs.length ∧
      (runWorker (initialWorker hasCb) evs).analysis.angles.map Prod.fst =
        List.range evs.length) := by
  have hcbp : ∀ ev ∈ p, CbOk ev := fun ev he => hcb ev (by simp [hsplit, he])
  have hgp : GoodState (runFrames (initialWorker hasCb) p) :=
    goodState_runFrames (goodState_initial hasCb) hcbp
  constructor
  · have hj := congrArg List.length hgp.jkeys
    have ha := congrArg List.length hgp.akeys
    simp only [List.length_map, List.length_range] at hj ha
    exact ⟨by rw [hj, ha], by rw [hgp.count, hj]⟩
  · intro hdet
    have hnf : ∀ ev ∈ evs, ev ≠ PoseOutcome.fault := by
      intro ev he hfault
      subst hfault
      exact absurd (hdet _ he) (by simp [IsDetected])
    have hrw := @runWorker_eq_readFailStop (initialWorker hasCb) evs rfl rfl hnf
    have hg : GoodState (runFrames (initialWorker hasCb) evs) :=
      goodState_runFrames (goodState_initial hasCb) hcb
    have hfn : (runFrames (initialWorker hasCb) evs).frameNumber = evs.length := by
      rw [runFrames_frameNumber_detected rfl
        (fun ev he => ⟨hdet ev he, hcb ev he⟩)]
      simp [initialWorker]
    rw [hrw]
    rw [readFailStop_analysis]
    refine ⟨?_, ?_, ?_⟩
    · rw [hg.count, hfn]
    · rw [hg.jkeys, hfn]
    · rw [hg.akeys, hfn]

/-- Witness for C2 (amended): the invariant and the final-state property
    evaluated on the one-frame run `[detected]` with no callback. -/
theorem store_invariant_witness :
    ((runFrames (initialWorker false) [.detected lm0 false]).analysis.joints.length =
        (runFrames (initialWorker false) [.detected lm0 false]).analysis.angles.length ∧
      (runFrames (initialWorker false) [.detected lm0 false]).analysis.frame_count =
        (runFrames (initialWorker false) [.detected lm0 false]).analysis.joints.length) ∧
    ((runWorker (initialWorker false) [.detected lm0 false]).analysis.frame_count = 1 ∧
      (runWorker (initialWorker false) [.detected lm0 false]).analysis.joints.map Prod.fst =
        List.range 1 ∧
      (runWorker (initialWorker false) [.detected lm0 false]).analysis.angles.map Prod.fst =
        List.range 1) := by
  have h := store_invariant false [.detected lm0 false] [.detected lm0 false] []
    (by simp)
    (by
      intro ev hev
      simp only [List.mem_singleton] at hev
      subst hev
      rfl)
  refine ⟨h.1, ?_⟩
  have h2 := h.2 (by
    intro ev hev
    simp only [List.mem_singleton] at hev
    subst hev
    trivial)
  simpa using h2

/-- C3 counterexample: `frame_number += 1` sits inside the `try` block
    after the extraction, so a detection-miss (which raises at the top of
    the `try`) never reaches it.  After `[detected, miss]` the local
    frame index is 1, not 2 as the claim requires, and after
    `[detected, miss, detected]` the stored keys are the contiguous
    `[0, 1]` rather than the gapped `{0, 2}` the claim predicts. -/
theorem miss_gap_cex :
    (runFrames (initialWorker false) [.detected lm0 false, .noPerson]).frameNumber = 1 ∧
    (runFrames (initialWorker false) [.detected lm0 false, .noPerson]).frameNumber ≠ 2 ∧
    (runFrames (initialWorker false)
        [.detected lm0 false, .noPerson, .detected lm0 false]).analysis.joints.map
      Prod.fst = [0, 1] := by
  refine ⟨?_, ?_, ?_⟩ <;>
    simp [runFrames, processEvent, initialWorker, writeFrame, dictInsert, lookupKey]

/-- C3 amended: on a detection-miss no `joints`/`angles` entry is
    written and the frame index is *not* consumed — the loop state is
    entirely unchanged — so the next successful frame is stored under
    the next contiguous index and the stored keys never have a gap
    (provided the callback never raises). -/
theorem miss_not_advancing (hasCb : Bool) (evs : List PoseOutcome)
    (hcb : ∀ ev ∈ evs, CbOk ev) :
    (∀ s : WorkerState, processEvent s .noPerson = s) ∧
    (runFrames (initialWorker hasCb) (evs ++ [.noPerson])).frameNumber =
      (runFrames (initialWorker hasCb) evs).frameNumber ∧
    (runFrames (initialWorker hasCb) evs).analysis.joints.map Prod.fst =
      List.range (runFrames (initialWorker hasCb) evs).frameNumber ∧
    (runFrames (initialWorker hasCb) evs).analysis.angles.map Prod.fst =
      List.range (runFrames (initialWorker hasCb) evs).frameNumber := by
  have hg : GoodState (runFrames (initialWorker hasCb) evs) :=
    goodState_runFrames (goodState_initial hasCb) hcb
  refine ⟨fun s => rfl, ?_, hg.jkeys, hg.akeys⟩
  rw [runFrames_append]
  by_cases h : (runFrames (initialWorker hasCb) evs).crashed = true
  · rw [runFrames_of_crashed _ _ h]
  · simp only [runFrames, if_neg h, processEvent_noPerson]

/-- Witness for C3 (amended), evaluated on the run `[detected, miss]`. -/
theorem miss_not_advancing_witness :
    (∀ s : WorkerState, processEvent s .noPerson = s) ∧
    (runFrames (initialWorker false)
        ([.detected lm0 false, .noPerson] ++ [.noPerson])).frameNumber =
      (runFrames (initialWorker false) [.detected lm0 false, .noPerson]).frameNumber ∧
    (runFrames (initialWorker false)
        [.detected lm0 false, .noPerson]).analysis.joints.map Prod.fst =
      List.range
        (runFrames (initialWorker false) [.detected lm0 false, .noPerson]).frameNumber ∧
    (runFrames (initialWorker false)
        [.detected lm0 false, .noPerson]).analysis.angles.map Prod.fst =
      List.range
        (runFrames (initialWorker false) [.detected lm0 false, .noPerson]).frameNumber :=
  miss_not_advancing false [.detected lm0 false, .noPerson]
    (by
      intro ev hev
      simp only [List.mem_cons, List.not_mem_nil, or_false] at hev
      rcases hev with h | h <;> subst h <;> trivial)

/-- C5 counterexample: `self.pose.process(image)` is called *outside*
    the `try` block, so a fault raised by the pose model propagates out
    of the loop body and terminates the worker: after `[fault, detected]`
    the thread has crashed, the later readable frame was never processed
    (`frame_count` stayed 0 instead of the 1 a treated-as-miss policy
    would give), `_is_running` is still true and the resources were not
    released. -/
theorem fault_crashes_worker_cex :
    (runWorker (initialWorker false) [.fault, .detected lm0 false]).crashed = true ∧
    (runWorker (initialWorker false) [.fault, .detected lm0 false]).analysis.frame_count
      = 0 ∧
    (runWorker (initialWorker false) [.fault, .detected lm0 false]).isRunning = true ∧
    (runWorker (initialWorker false) [.fault, .detected lm0 false]).sourceReleased
      = false := by
  refine ⟨?_, ?_, ?_, ?_⟩ <;>
    simp [runWorker, processEvent, initialWorker, readFailStop, normalExit]

/-- C5 amended: exceptions raised *inside* the per-frame `try` block —
    the clean no-landmarks access, malformed landmark data, and anything
    downstream of the extraction — are swallowed and the frame is a
    detection-miss (state unchanged apart from the detected-frame
    effects), and a successful detection never sets the crash flag; but
    a fault raised by the `pose.process` call itself is not caught: it
    terminates the loop immediately and the remaining readable frames
    are never processed. -/
theorem fault_handling_boundary :
    (∀ s : WorkerState, processEvent s .noPerson = s) ∧
    (∀ s : WorkerState, processEvent s .badLandmarks = s) ∧
    (∀ (s : WorkerState) (lm : ℕ → Landmark) (r : Bool),
      (processEvent s (.detected lm r)).crashed = s.crashed) ∧
    (∀ s : WorkerState, (processEvent s .fault).crashed = true) ∧
    (∀ (s : WorkerState) (evs : List PoseOutcome), s.crashed = false →
      runFrames s (.fault :: evs) = { s with crashed := true }) := by
  refine ⟨fun s => rfl, fun s => rfl, processEvent_crashed, fun s => rfl, ?_⟩
  intro s evs hcr
  simp only [runFrames, hcr, Bool.false_eq_true, if_false]
  rw [processEvent_fault]
  exact runFrames_of_crashed _ _ rfl

/-- Witness for C5 (amended), evaluated at the initial worker state. -/
theorem fault_handling_boundary_witness :
    processEvent (initialWorker false) .noPerson = initialWorker false ∧
    processEvent (initialWorker false) .badLandmarks = initialWorker false ∧
    (processEvent (initialWorker false) (.detected lm0 false)).crashed =
      (initialWorker false).crashed ∧
    (processEvent (initialWorker false) .fault).crashed = true ∧
    runFrames (initialWorker false) [.fault, .noPerson] =
      { initialWorker false with crashed := true } :=
  ⟨fault_handling_boundary.1 (initialWorker false),
    fault_handling_boundary.2.1 (initialWorker false),
    fault_handling_boundary.2.2.1 (initialWorker false) lm0 false,
    fault_handling_boundary.2.2.2.1 (initialWorker false),
    fault_handling_boundary.2.2.2.2 (initialWorker false) [.noPerson] rfl⟩

/-- C6: on end of stream (`ret == False`) the worker calls
    `self.stop_analysis()` from its own thread; the flag is cleared (the
    engine does report Idle), but `self._thread.join()` then raises
    `RuntimeError` (a thread cannot join itself), the exception escapes
    `_run_analysis`, and the `break` plus the
    `self.video_source.release()` / `self.pose.close()` lines are
    skipped: the video source and the pose handle are *not* released,
    and the termination is a crash rather than a normal stop — both for
    an immediately-exhausted source and after a processed frame. -/
theorem end_of_stream_no_release :
    (runWorker (initialWorker false) []).isRunning = false ∧
    (runWorker (initialWorker false) []).crashed = true ∧
    (runWorker (initialWorker false) []).sourceReleased = false ∧
    (runWorker (initialWorker false) []).poseClosed = false ∧
    (runWorker (initialWorker false) [.detected lm0 false]).sourceReleased = false ∧
    (runWorker (initialWorker false) [.detected lm0 false]).poseClosed = false ∧
    (runWorker (initialWorker false) [.detected lm0 false]).crashed = true := by
  refine ⟨?_, ?_, ?_, ?_, ?_, ?_, ?_⟩ <;>
    simp [runWorker, processEvent, initialWorker, readFailStop, normalExit]

/-- C8 counterexample: when the callback raises for a frame, the
    `frame_number += 1` after the invocation is skipped, so the next
    successful frame is delivered under the *same* index: on
    `[detected (callback raises), detected]` the delivered index
    sequence is `[0, 0]`, which is neither once-per-index nor strictly
    increasing. -/
theorem listener_sequence_cex :
    (runFrames (initialWorker true)
        [.detected lm0 true, .detected lm0 false]).delivered.map Prod.fst = [0, 0] ∧
    ¬ List.Chain' (fun m n => m < n)
      ((runFrames (initialWorker true)
        [.detected lm0 true, .detected lm0 false]).delivered.map Prod.fst) := by
  have h : (runFrames (initialWorker true)
      [.detected lm0 true, .detected lm0 false]).delivered.map Prod.fst = [0, 0] := by
    simp [runFrames, processEvent, initialWorker, writeFrame, dictInsert, lookupKey]
  refine ⟨h, ?_⟩
  rw [h]
  simp [List.chain'_cons]

/-- C8 amended: provided the registered listener never raises, the
    delivered frame indices are exactly the contiguous, strictly
    increasing range `0..frame_number-1` (once per successfully
    processed frame, gap-free), every delivered `(N, joints, angles)`
    triple carries precisely the snapshots stored under key `N`, and on
    each successful frame the single delivery happens in the same
    iteration as the store write for that frame — with the freshly
    written snapshots and the pre-increment frame index — before the
    next frame is processed. -/
theorem listener_delivery (evs : List PoseOutcome)
    (hcb : ∀ ev ∈ evs, CbOk ev) :
    (runFrames (initialWorker true) evs).delivered.map Prod.fst =
      List.range (runFrames (initialWorker true) evs).frameNumber ∧
    (∀ n j a, (n, j, a) ∈ (runFrames (initialWorker true) evs).delivered →
      lookupKey (runFrames (initialWorker true) evs).analysis.joints n = some j ∧
      lookupKey (runFrames (initialWorker true) evs).analysis.angles n = some a) ∧
    (∀ (s : WorkerState) (lm : ℕ → Landmark), s.hasCallback = true →
      (processEvent s (.detected lm false)).delivered =
        s.delivered ++ [(s.frameNumber, extractJoints lm, computeAngles lm)] ∧
      (processEvent s (.detected lm false)).analysis =
        writeFrame s.analysis s.frameNumber (extractJoints lm) (computeAngles lm) ∧
      (processEvent s (.detected lm false)).frameNumber = s.frameNumber + 1) := by
  have hg : GoodState (runFrames (initialWorker true) evs) :=
    goodState_runFrames (goodState_initial true) hcb
  have hcbf : (runFrames (initialWorker true) evs).hasCallback = true := by
    rw [runFrames_hasCallback]
    rfl
  refine ⟨?_, hg.dlook, ?_⟩
  · rw [hg.dkeys, hcbf, if_pos rfl]
  · intro s lm hcb'
    rw [processEvent_detected_cb lm hcb']
    exact ⟨rfl, rfl, rfl⟩

/-- Witness for C8 (amended), evaluated on the two-frame run
    `[detected, detected]` with a registered, non-raising listener. -/
theorem listener_delivery_witness :
    (runFrames (initialWorker true)
        [.detected lm0 false, .detected lm0 false]).delivered.map Prod.fst =
      List.range (runFrames (initialWorker true)
        [.detected lm0 false, .detected lm0 false]).frameNumber ∧
    (lookupKey (runFrames (initialWorker true)
        [.detected lm0 false, .detected lm0 false]).analysis.joints 0 =
      some (extractJoints lm0) ∧
     lookupKey (runFrames (initialWorker true)
        [.detected lm0 false, .detected lm0 false]).analysis.angles 0 =
      some (computeAngles lm0)) ∧
    (processEvent (initialWorker true) (.detected lm0 false)).delivered =
      (initialWorker true).delivered ++ [((initialWorker true).frameNumber,
        extractJoints lm0, computeAngles lm0)] := by
  have hcb : ∀ ev ∈ [PoseOutcome.detected lm0 false, PoseOutcome.detected lm0 false],
      CbOk ev := by
    intro ev hev
    simp only [List.mem_cons, List.not_mem_nil, or_false] at hev
    rcases hev with h | h <;> subst h <;> rfl
  have h := listener_delivery [.detected lm0 false, .detected lm0 false] hcb
  refine ⟨h.1, h.2.1 0 (extractJoints lm0) (computeAngles lm0) ?_, (h.2.2 (initialWorker true) lm0 rfl).1⟩
  simp [runFrames, processEvent, initialWorker, writeFrame, dictInsert, lookupKey]

/-- C10: if the registered callback raises for the frame at index `N`,
    the exception is swallowed by the loop's `except` (the crash flag is
    untouched), the store write already committed under the lock —
    `frame_count + 1` and the `joints`/`angles` entries at key `N` — is
    retained, and `frame_number` is not incremented; the next successful
    frame is therefore written under the same key `N`, overwriting both
    entries (the key set does not grow) while `frame_count` is
    incremented again. -/
theorem callback_exception_behavior (s : WorkerState) (lm lm' : ℕ → Landmark)
    (hcb : s.hasCallback = true) :
    (processEvent s (.detected lm true)).crashed = s.crashed ∧
    (processEvent s (.detected lm true)).analysis =
      writeFrame s.analysis s.frameNumber (extractJoints lm) (computeAngles lm) ∧
    (processEvent s (.detected lm true)).frameNumber = s.frameNumber ∧
    (processEvent (processEvent s (.detected lm true))
        (.detected lm' false)).analysis.frame_count = s.analysis.frame_count + 2 ∧
    (processEvent (processEvent s (.detected lm true))
        (.detected lm' false)).frameNumber = s.frameNumber + 1 ∧
    lookupKey (processEvent (processEvent s (.detected lm true))
        (.detected lm' false)).analysis.joints s.frameNumber =
      some (extractJoints lm') ∧
    (processEvent (processEvent s (.detected lm true))
        (.detected lm' false)).analysis.joints.map Prod.fst =
      (processEvent s (.detected lm true)).analysis.joints.map Prod.fst := by
  have h1 := processEvent_detected_cbRaises lm hcb
  have hcb1 : (processEvent s (.detected lm true)).hasCallback = true := by
    rw [processEvent_hasCallback]
    exact hcb
  have h2 := processEvent_detected_cb lm' hcb1
  rw [h1] at h2 ⊢
  rw [h2]
  have hself : lookupKey (dictInsert s.analysis.joints s.frameNumber
      (extractJoints lm)) s.frameNumber = some (extractJoints lm) :=
    lookupKey_dictInsert_self ..
  refine ⟨rfl, rfl, rfl, by simp [writeFrame], by simp [writeFrame], ?_, ?_⟩
  · simp only [writeFrame]
    exact lookupKey_dictInsert_self ..
  · simp only [writeFrame]
    exact keys_dictInsert_of_some _ hself

/-- Witness for C10, evaluated at the started worker with a registered
    callback that raises on the first frame. -/
theorem callback_exception_behavior_witness :
    (processEvent (initialWorker true) (.detected lm0 true)).crashed =
      (initialWorker true).crashed ∧
    (processEvent (initialWorker true) (.detected lm0 true)).analysis =
      writeFrame (initialWorker true).analysis (initialWorker true).frameNumber
        (extractJoints lm0) (computeAngles lm0) ∧
    (processEvent (initialWorker true) (.detected lm0 true)).frameNumber =
      (initialWorker true).frameNumber ∧
    (processEvent (processEvent (initialWorker true) (.detected lm0 true))
        (.detected lm0 false)).analysis.frame_count =
      (initialWorker true).analysis.frame_count + 2 ∧
    (processEvent (processEvent (initialWorker true) (.detected lm0 true))
        (.detected lm0 false)).frameNumber = (initialWorker true).frameNumber + 1 ∧
    lookupKey (processEvent (processEvent (initialWorker true) (.detected lm0 true))
        (.detected lm0 false)).analysis.joints (initialWorker true).frameNumber =
      some (extractJoints lm0) ∧
    (processEvent (processEvent (initialWorker true) (.detected lm0 true))
        (.detected lm0 false)).analysis.joints.map Prod.fst =
      (processEvent (initialWorker true) (.detected lm0 true)).analysis.joints.map
        Prod.fst :=
  callback_exception_behavior (initialWorker true) lm0 lm0 rfl

/-! ## Lifecycle methods `start_analysis` / `stop_analysis` -/

/-- Diagnostics printed by the lifecycle methods. -/
inductive Diag
  | alreadyRunning
  | notRunning
  deriving DecidableEq

/-- Caller-visible engine state for the lifecycle methods: the
    `_is_running` flag, whether `_thread` has been set, and a count of
    worker threads ever spawned (for the no-duplicate-worker property). -/
structure MethodState where
  isRunning : Bool
  hasThread : Bool
  threadsSpawned : ℕ
  deriving DecidableEq

/-- `BikeFit.start_analysis`: if `_is_running`, print a diagnostic and
    return; otherwise set the flag, create the worker thread and start
    it. -/
def start_analysis (e : MethodState) : MethodState × Option Diag :=
  if e.isRunning then (e, some .alreadyRunning)
  else
    ({ e with
        isRunning := true
        hasThread := true
        threadsSpawned := e.threadsSpawned + 1 }, none)

/-- `BikeFit.stop_analysis` as seen from a *caller* thread: if not
    `_is_running`, print a diagnostic and return (no state change, no
    exception — in particular the untouched `_thread` is never joined);
    otherwise clear the flag (the join that follows is modelled in the
    small-step semantics below). -/
def stop_analysis (e : MethodState) : MethodState × Option Diag :=
  if e.isRunning = false then (e, some .notRunning)
  else ({ e with isRunning := false }, none)

/-- A freshly constructed engine: not running, no thread yet. -/
def freshEngine : MethodState :=
  { isRunning := false, hasThread := false, threadsSpawned := 0 }

/-- C9: `start()` while already running and `stop()` while idle are
    idempotent no-ops with a diagnostic: `stop()` before `start()`
    raises nothing and changes no state, and calling `start()` twice in
    a row leaves the engine running with exactly one worker thread ever
    spawned (no duplicated frame processing). -/
theorem lifecycle_idempotent :
    (∀ e : MethodState, e.isRunning = true →
      start_analysis e = (e, some .alreadyRunning)) ∧
    (∀ e : MethodState, e.isRunning = false →
      stop_analysis e = (e, some .notRunning)) ∧
    stop_analysis freshEngine = (freshEngine, some .notRunning) ∧
    (start_analysis (start_analysis freshEngine).1).1 =
      (start_analysis freshEngine).1 ∧
    (start_analysis (start_analysis freshEngine).1).2 = some .alreadyRunning ∧
    (start_analysis (start_analysis freshEngine).1).1.threadsSpawned = 1 ∧
    (start_analysis (start_analysis freshEngine).1).1.isRunning = true := by
  refine ⟨?_, ?_, ?_, ?_, ?_, ?_, ?_⟩
  · intro e he
    simp [start_analysis, he]
  · intro e he
    simp [stop_analysis, he]
  all_goals simp [start_analysis, stop_analysis, freshEngine]

/-- Witness for C9: the two quantified parts applied at concrete
    engine states. -/
theorem lifecycle_idempotent_witness :
    start_analysis ⟨true, true, 1⟩ = (⟨true, true, 1⟩, some .alreadyRunning) ∧
    stop_analysis freshEngine = (freshEngine, some .notRunning) :=
  ⟨lifecycle_idempotent.1 ⟨true, true, 1⟩ rfl,
    lifecycle_idempotent.2.1 freshEngine rfl⟩

/-! ## Interleaving semantics: worker thread vs. a caller thread

One step is either one whole loop iteration of the worker (store writes
are atomic under the lock), the worker observing the cleared flag and
exiting, the worker hitting a failed read, a caller invoking
`stop_analysis` (clearing the flag, then blocking in `join` until the
worker thread has terminated), the `join` returning, or a consumer
reading the shared `Analysis` object. -/

/-- Where the stopping caller is: has not called `stop_analysis` yet,
    is blocked inside `self._thread.join()`, or `stop_analysis` has
    returned. -/
inductive CallerPhase
  | ready
  | joining
  | stopReturned
  deriving DecidableEq

/-- Combined system state: the worker state (holding the shared
    `_is_running` flag and the shared `Analysis` object), the remaining
    readable frames of the source, whether the worker thread has
    terminated (normally or by an escaped exception), the stopping
    caller's phase, and a log of consumer reads of the shared object. -/
structure Sys where
  w : WorkerState
  events : List PoseOutcome
  workerDone : Bool
  phase : CallerPhase
  obsLog : List Analysis

/-- Thread/caller actions. -/
inductive SysAction
  | workerIter
  | workerExit
  | workerReadFail
  | stopCall
  | stopCallIdle
  | stopJoin
  | observe

/-- One interleaved step: `none` when the action is not enabled.

    * `workerIter`: the live worker, seeing `_is_running` true, reads a
      frame and runs one loop-body iteration; if an exception escaped,
      the thread is dead.
    * `workerExit`: the live worker sees `_is_running` false at the top
      of the loop, leaves the loop, releases the resources and
      terminates.
    * `workerReadFail`: the live worker's read fails (source
      exhausted); `stop_analysis` is invoked on the worker thread
      itself (see `readFailStop`) and the thread terminates.
    * `stopCall`: a caller invokes `stop_analysis` while the flag is
      true: the flag is cleared and the caller blocks in
      `self._thread.join()`.
    * `stopCallIdle`: a caller invokes `stop_analysis` while the flag
      is already false: diagnostic only, returns immediately.
    * `stopJoin`: `join()` returns — enabled only once the worker
      thread has terminated; `stop_analysis` then returns.
    * `observe`: a consumer reads the contents of the shared `Analysis`
      object at this moment (e.g. through a reference previously
      returned by `get_analysis`). -/
noncomputable def stepFn (s : Sys) (a : SysAction) : Option Sys :=
  match a with
  | .workerIter =>
      match s.workerDone, s.w.isRunning, s.events with
      | false, true, ev :: rest =>
          let w' := processEvent s.w ev
          some { s with w := w', events := rest, workerDone := w'.crashed }
      | _, _, _ => none
  | .workerExit =>
      match s.workerDone, s.w.isRunning with
      | false, false => some { s with w := normalExit s.w, workerDone := true }
      | _, _ => none
  | .workerReadFail =>
      match s.workerDone, s.w.isRunning, s.events with
      | false, true, [] => some { s with w := readFailStop s.w, workerDone := true }
      | _, _, _ => none
  | .stopCall =>
      match s.phase, s.w.isRunning with
      | .ready, true =>
          some { s with w := { s.w with isRunning := false }, phase := .joining }
      | _, _ => none
  | .stopCallIdle =>
      match s.phase, s.w.isRunning with
      | .ready, false => some { s with phase := .stopReturned }
      | _, _ => none
  | .stopJoin =>
      match s.phase, s.workerDone with
      | .joining, true => some { s with phase := .stopReturned }
      | _, _ => none
  | .observe => some { s with obsLog := s.obsLog ++ [s.w.analysis] }

/-- One step of the interleaved system. -/
def SysStep (s s' : Sys) : Prop := ∃ a, stepFn s a = some s'

/-- Zero or more interleaved steps. -/
def SysReach (s s' : Sys) : Prop := Relation.ReflTransGen SysStep s s'

/-- The system right after `start_analysis` on a fresh engine, with a
    pending source of `evs` readable frames. -/
def startedSys (hasCb : Bool) (evs : List PoseOutcome) : Sys :=
  { w := initialWorker hasCb
    events := evs
    workerDone := false
    phase := .ready
    obsLog := [] }

/-- There is exactly one `Analysis` object: `self._analysis`, created at
    engine construction and mutated in place by the loop.
    `get_analysis` returns a reference to it. -/
inductive AnalysisRef
  | theObject

/-- `BikeFit.get_analysis`: `with self._lock: return self._analysis` —
    the lock is taken, but the *live* store object itself is returned,
    not a copy. -/
def get_analysis (_ : Sys) : AnalysisRef := .theObject

/-- Reading the fields of the referenced `Analysis` object while the
    system is in state `s` observes the engine's current store, because
    the background loop mutates that same object in place
    (`self._analysis.frame_count += 1`, `self._analysis.joints[...] = ...`). -/
def derefAnalysis (s : Sys) (_ : AnalysisRef) : Analysis := s.w.analysis

/-! ### Inversion of the step function -/

lemma stepFn_workerIter_inv {s s' : Sys}
    (ha : stepFn s SysAction.workerIter = some s') :
    ∃ ev rest, s.workerDone = false ∧ s.w.isRunning = true ∧
      s.events = ev :: rest ∧
      s' = { s with
              w := processEvent s.w ev
              events := rest
              workerDone := (processEvent s.w ev).crashed } := by
  simp only [stepFn] at ha
  split at ha
  · next ev rest hd hr he =>
      obtain rfl := Option.some.inj ha
      exact ⟨ev, rest, hd, hr, he, rfl⟩
  · simp at ha

lemma stepFn_workerExit_inv {s s' : Sys}
    (ha : stepFn s SysAction.workerExit = some s') :
    s.workerDone = false ∧ s.w.isRunning = false ∧
      s' = { s with w := normalExit s.w, workerDone := true } := by
  simp only [stepFn] at ha
  split at ha
  · next hd hr =>
      obtain rfl := Option.some.inj ha
      exact ⟨hd, hr, rfl⟩
  · simp at ha

lemma stepFn_workerReadFail_inv {s s' : Sys}
    (ha : stepFn s SysAction.workerReadFail = some s') :
    s.workerDone = false ∧ s.w.isRunning = true ∧ s.events = [] ∧
      s' = { s with w := readFailStop s.w, workerDone := true } := by
  simp only [stepFn] at ha
  split at ha
  · next hd hr he =>
      obtain rfl := Option.some.inj ha
      exact ⟨hd, hr, he, rfl⟩
  · simp at ha

lemma stepFn_stopCall_inv {s s' : Sys}
    (ha : stepFn s SysAction.stopCall = some s') :
    s.phase = CallerPhase.ready ∧ s.w.isRunning = true ∧
      s' = { s with w := { s.w with isRunning := false },
                    phase := CallerPhase.joining } := by
  simp only [stepFn] at ha
  split at ha
  · next hp hr =>
      obtain rfl := Option.some.inj ha
      exact ⟨hp, hr, rfl⟩
  · simp at ha

lemma stepFn_stopCallIdle_inv {s s' : Sys}
    (ha : stepFn s SysAction.stopCallIdle = some s') :
    s.phase = CallerPhase.ready ∧ s.w.isRunning = false ∧
      s' = { s with phase := CallerPhase.stopReturned } := by
  simp only [stepFn] at ha
  split at ha
  · next hp hr =>
      obtain rfl := Option.some.inj ha
      exact ⟨hp, hr, rfl⟩
  · simp at ha

lemma stepFn_stopJoin_inv {s s' : Sys}
    (ha : stepFn s SysAction.stopJoin = some s') :
    s.phase = CallerPhase.joining ∧ s.workerDone = true ∧
      s' = { s with phase := CallerPhase.stopReturned } := by
  simp only [stepFn] at ha
  split at ha
  · next hp hd =>
      obtain rfl := Option.some.inj ha
      exact ⟨hp, hd, rfl⟩
  · simp at ha

lemma stepFn_observe_inv {s s' : Sys}
    (ha : stepFn s SysAction.observe = some s') :
    s' = { s with obsLog := s.obsLog ++ [s.w.analysis] } :=
  (Option.some.inj ha).symm

/-! ### The join invariant and the freeze property -/

/-- Invariant tying the caller's phase to the worker thread: once
    `stop_analysis` has returned the worker thread has terminated, and
    if the flag is down while the caller has not called `stop` yet, the
    worker stopped itself (and is terminated). -/
def SysInv (s : Sys) : Prop :=
  (s.phase = CallerPhase.stopReturned → s.workerDone = true) ∧
  (s.w.isRunning = false → s.phase = CallerPhase.ready → s.workerDone = true)

lemma sysInv_step {s s' : Sys} (hInv : SysInv s) (h : SysStep s s') :
    SysInv s' := by
  obtain ⟨a, ha⟩ := h
  cases a with
  | workerIter =>
      obtain ⟨ev, rest, hwd, hir, hev, rfl⟩ := stepFn_workerIter_inv ha
      constructor
      · intro hph
        have := hInv.1 hph
        rw [hwd] at this
        exact absurd this (by simp)
      · intro hir' _
        rw [processEvent_isRunning, hir] at hir'
        exact absurd hir' (by simp)
  | workerExit =>
      obtain ⟨_, _, rfl⟩ := stepFn_workerExit_inv ha
      exact ⟨fun _ => rfl, fun _ _ => rfl⟩
  | workerReadFail =>
      obtain ⟨_, _, _, rfl⟩ := stepFn_workerReadFail_inv ha
      exact ⟨fun _ => rfl, fun _ _ => rfl⟩
  | stopCall =>
      obtain ⟨_, _, rfl⟩ := stepFn_stopCall_inv ha
      constructor
      · intro hph
        simp at hph
      · intro _ hph
        simp at hph
  | stopCallIdle =>
      obtain ⟨hph, hir, rfl⟩ := stepFn_stopCallIdle_inv ha
      have hwd : s.workerDone = true := hInv.2 hir hph
      exact ⟨fun _ => hwd, fun _ _ => hwd⟩
  | stopJoin =>
      obtain ⟨_, hwd, rfl⟩ := stepFn_stopJoin_inv ha
      exact ⟨fun _ => hwd, fun _ _ => hwd⟩
  | observe =>
      obtain rfl := stepFn_observe_inv ha
      exact hInv

/-- Once the worker thread has terminated, no step ever changes the
    `Analysis` store again (and the thread stays terminated): the worker
    actions are disabled and the caller/consumer actions do not write. -/
lemma sysStep_after_done {s s' : Sys} (h : SysStep s s')
    (hwd : s.workerDone = true) :
    s'.w.analysis = s.w.analysis ∧ s'.workerDone = true := by
  obtain ⟨a, ha⟩ := h
  cases a with
  | workerIter =>
      obtain ⟨_, _, hwd', _, _, rfl⟩ := stepFn_workerIter_inv ha
      rw [hwd] at hwd'
      exact absurd hwd' (by simp)
  | workerExit =>
      obtain ⟨hwd', _, rfl⟩ := stepFn_workerExit_inv ha
      rw [hwd] at hwd'
      exact absurd hwd' (by simp)
  | workerReadFail =>
      obtain ⟨hwd', _, _, rfl⟩ := stepFn_workerReadFail_inv ha
      rw [hwd] at hwd'
      exact absurd hwd' (by simp)
  | stopCall =>
      obtain ⟨_, _, rfl⟩ := stepFn_stopCall_inv ha
      exact ⟨rfl, hwd⟩
  | stopCallIdle =>
      obtain ⟨_, _, rfl⟩ := stepFn_stopCallIdle_inv ha
      exact ⟨rfl, hwd⟩
  | stopJoin =>
      obtain ⟨_, _, rfl⟩ := stepFn_stopJoin_inv ha
      exact ⟨rfl, hwd⟩
  | observe =>
      obtain rfl := stepFn_observe_inv ha
      exact ⟨rfl, hwd⟩

lemma sysInv_reach {s s' : Sys} (hInv : SysInv s) (h : SysReach s s') :
    SysInv s' := by
  unfold SysReach at h
  induction h with
  | refl => exact hInv
  | tail _ hstep ih => exact sysInv_step ih hstep

lemma sysReach_after_done {s s' : Sys} (h : SysReach s s')
    (hwd : s.workerDone = true) :
    s'.w.analysis = s.w.analysis ∧ s'.workerDone = true := by
  unfold SysReach at h
  induction h with
  | refl => exact ⟨rfl, hwd⟩
  | tail _ hstep ih =>
      obtain ⟨han, hdone⟩ := ih
      obtain ⟨han', hdone'⟩ := sysStep_after_done hstep hdone
      exact ⟨han'.trans han, hdone'⟩

/-- C7: for an engine with the worker running and the caller yet to
    stop, whenever `stop_analysis` has returned (after clearing the flag
    and joining), the worker thread has fully exited at that moment, and
    the `Analysis` store observed then — `frame_count`, `joints` and
    `angles` alike — equals the store observed at any later reachable
    time: no write ever happens after `stop()` returns. -/
theorem stop_join_freezes_store (s0 s1 s2 : Sys)
    (hrun : s0.w.isRunning = true) (hdone : s0.workerDone = false)
    (hph : s0.phase = CallerPhase.ready)
    (h01 : SysReach s0 s1) (h12 : SysReach s1 s2)
    (hret : s1.phase = CallerPhase.stopReturned) :
    s1.workerDone = true ∧ s2.w.analysis = s1.w.analysis := by
  have hInv0 : SysInv s0 := by
    constructor
    · intro h
      rw [hph] at h
      exact absurd h (by decide)
    · intro h _
      rw [hrun] at h
      exact absurd h (by simp)
  have hInv1 : SysInv s1 := sysInv_reach hInv0 h01
  have hwd1 : s1.workerDone = true := hInv1.1 hret
  exact ⟨hwd1, (sysReach_after_done h12 hwd1).1⟩

/-- Concrete trace for the C7 witness: started engine over an empty
    source; the caller stops it before the worker ever runs. -/
def wStop0 : Sys := startedSys false []

def wStop1a : Sys :=
  { wStop0 with w := { wStop0.w with isRunning := false }, phase := .joining }

def wStop1b : Sys :=
  { wStop1a with w := normalExit wStop1a.w, workerDone := true }

def wStop1 : Sys := { wStop1b with phase := .stopReturned }

def wStop2 : Sys := { wStop1 with obsLog := wStop1.obsLog ++ [wStop1.w.analysis] }

/-- Witness for C7: the trace `stopCall; workerExit; stopJoin` followed
    by a consumer observation. -/
theorem stop_join_freezes_store_witness :
    wStop1.workerDone = true ∧ wStop2.w.analysis = wStop1.w.analysis :=
  stop_join_freezes_store wStop0 wStop1 wStop2 rfl rfl rfl
    (Relation.ReflTransGen.head
      (⟨SysAction.stopCall, rfl⟩ : SysStep wStop0 wStop1a)
      (Relation.ReflTransGen.head
        (⟨SysAction.workerExit, rfl⟩ : SysStep wStop1a wStop1b)
        (Relation.ReflTransGen.head
          (⟨SysAction.stopJoin, rfl⟩ : SysStep wStop1b wStop1)
          Relation.ReflTransGen.refl)))
    (Relation.ReflTransGen.head
      (⟨SysAction.observe, rfl⟩ : SysStep wStop1 wStop2)
      Relation.ReflTransGen.refl)
    rfl

/-- Concrete states for the C1 demonstration: a started engine whose
    source holds one detectable frame, before and after the worker
    processes it. -/
def aliasS0 : Sys := startedSys false [.detected lm0 false]

noncomputable def aliasS1 : Sys :=
  { aliasS0 with
      w := processEvent aliasS0.w (.detected lm0 false)
      events := []
      workerDone := (processEvent aliasS0.w (.detected lm0 false)).crashed }

/-- C1: `get_analysis` returns the live `self._analysis` object under
    the lock rather than a copy, so the value is *not* immune to
    concurrent mutation: after the background loop's next frame write
    (one interleaved worker step), the contents observed through the
    previously returned reference change — `frame_count` read through it
    goes from 0 to 1. -/
theorem get_analysis_live_reference :
    SysStep aliasS0 aliasS1 ∧
    (derefAnalysis aliasS0 (get_analysis aliasS0)).frame_count = 0 ∧
    (derefAnalysis aliasS1 (get_analysis aliasS0)).frame_count = 1 ∧
    derefAnalysis aliasS1 (get_analysis aliasS0) ≠
      derefAnalysis aliasS0 (get_analysis aliasS0) := by
  have hfc : (derefAnalysis aliasS1 (get_analysis aliasS0)).frame_count = 1 := by
    simp [derefAnalysis, aliasS1, aliasS0, startedSys, initialWorker,
      processEvent, writeFrame]
  refine ⟨⟨SysAction.workerIter, rfl⟩, rfl, hfc, ?_⟩
  intro h
  have h0 := congrArg Analysis.frame_count h
  rw [hfc] at h0
  simp [derefAnalysis, aliasS0, startedSys, initialWorker] at h0
